import Mathlib

/-! Token classification and precedence tables of `shabby-lexer`.

A shallow embedding of `token/token.go`: the token enumeration, the spelling
table `tokens`, `Token.String`, `Token.Precedence`, the keyword map built by
`init`, `Lookup`, the range predicates, `IsExported` and `IsIdentifier`,
followed by theorems about them.

Go's `type Token int` is embedded as `Int` itself: a token value is an integer,
and a statement quantified over all `Int` covers every machine value. The
methods of `Token` keep their names in the namespace `Token`. Go strings are
embedded as `String`, compared for equality character by character.
-/

namespace token

/-! ## The list of tokens (`const ( ... iota ... )`) -/

def ILLEGAL : Int := 0
def EOF : Int := 1
def COMMENT : Int := 2
def literal_beg : Int := 3
def IDENT : Int := 4
def INT : Int := 5
def FLOAT : Int := 6
def STRING : Int := 7
def literal_end : Int := 8
def operator_beg : Int := 9
def ADD : Int := 10
def SUB : Int := 11
def MUL : Int := 12
def QUO : Int := 13
def REM : Int := 14
def AND : Int := 15
def OR : Int := 16
def XOR : Int := 17
def SHL : Int := 18
def SHR : Int := 19
def NOT : Int := 20
def ADD_ASSIGN : Int := 21
def SUB_ASSIGN : Int := 22
def MUL_ASSIGN : Int := 23
def QUO_ASSIGN : Int := 24
def REM_ASSIGN : Int := 25
def AND_ASSIGN : Int := 26
def OR_ASSIGN : Int := 27
def XOR_ASSIGN : Int := 28
def SHL_ASSIGN : Int := 29
def SHR_ASSIGN : Int := 30
def LAND : Int := 31
def LOR : Int := 32
def INC : Int := 33
def DEC : Int := 34
def EQL : Int := 35
def LSS : Int := 36
def GTR : Int := 37
def ASSIGN : Int := 38
def LNOT : Int := 39
def NEQ : Int := 40
def LEQ : Int := 41
def GEQ : Int := 42
def DEFINE : Int := 43
def ELLIPSIS : Int := 44
def LPAREN : Int := 45
def LBRACK : Int := 46
def LBRACE : Int := 47
def COMMA : Int := 48
def PERIOD : Int := 49
def RPAREN : Int := 50
def RBRACK : Int := 51
def RBRACE : Int := 52
def SEMICOLON : Int := 53
def COLON : Int := 54
def operator_end : Int := 55
def keyword_beg : Int := 56
def BREAK : Int := 57
def CASE : Int := 58
def CONST : Int := 59
def CONTINUE : Int := 60
def DEFAULT : Int := 61
def DEFER : Int := 62
def ELSE : Int := 63
def FALLTHROUGH : Int := 64
def FOR : Int := 65
def WHILE : Int := 66
def FUNC : Int := 67
def IF : Int := 68
def IMPORT : Int := 69
def INTERFACE : Int := 70
def MAP : Int := 71
def PACKAGE : Int := 72
def RANGE : Int := 73
def RETURN : Int := 74
def STRUCT : Int := 75
def SWITCH : Int := 76
def TYPE : Int := 77
def VAR : Int := 78
def keyword_end : Int := 79
def additional_beg : Int := 80
def additional_end : Int := 81

/-! ## The spelling table (`var tokens = [...]string{ K: "..." , ... }`) -/

/-- The keyed elements of the composite literal, in source order. -/
def tokenEntries : List (Int × String) :=
  [ (ILLEGAL, "ILLEGAL"),
    (EOF, "EOF"), (COMMENT, "COMMENT"),
    (IDENT, "IDENT"), (INT, "INT"), (FLOAT, "FLOAT"), (STRING, "STRING"),
    (ADD, "+"), (SUB, "-"), (MUL, "*"), (QUO, "/"), (REM, "%"),
    (AND, "&"), (OR, "|"), (XOR, "^"), (SHL, "<<"), (SHR, ">>"), (NOT, "~"),
    (ADD_ASSIGN, "+="), (SUB_ASSIGN, "-="), (MUL_ASSIGN, "*="),
    (QUO_ASSIGN, "/="), (REM_ASSIGN, "%="),
    (AND_ASSIGN, "&="), (OR_ASSIGN, "|="), (XOR_ASSIGN, "^="),
    (SHL_ASSIGN, "<<="), (SHR_ASSIGN, ">>="),
    (LAND, "&&"), (LOR, "||"), (INC, "++"), (DEC, "--"),
    (EQL, "=="), (LSS, "<"), (GTR, ">"), (ASSIGN, "="), (LNOT, "!"),
    (NEQ, "!="), (LEQ, "<="), (GEQ, ">="), (DEFINE, ":="), (ELLIPSIS, "..."),
    (LPAREN, "("), (LBRACK, "["), (LBRACE, "\x7b"), (COMMA, ","), (PERIOD, "."),
    (RPAREN, ")"), (RBRACK, "]"), (RBRACE, "\x7d"), (SEMICOLON, ";"), (COLON, ":"),
    (BREAK, "break"), (CASE, "case"), (CONST, "const"), (CONTINUE, "continue"),
    (DEFAULT, "default"), (DEFER, "defer"), (ELSE, "else"),
    (FALLTHROUGH, "fallthrough"), (FOR, "for"), (WHILE, "while"),
    (FUNC, "func"), (IF, "if"), (IMPORT, "import"),
    (INTERFACE, "interface"), (MAP, "map"), (PACKAGE, "package"),
    (RANGE, "range"), (RETURN, "return"),
    (STRUCT, "struct"), (SWITCH, "switch"), (TYPE, "type"), (VAR, "var") ]

/-- Length of a `[...]T{...}` array given by keyed elements: one more than the
largest key. -/
def keyedLen (es : List (Int × String)) : Nat :=
  es.foldl (fun n e => max n (e.1.toNat + 1)) 0

/-- Element `i` of a keyed array literal: the value written at key `i`, and the
zero value `""` where no element is written. -/
def keyedAt (es : List (Int × String)) (i : Nat) : String :=
  match es.find? (fun e => e.1 == (i : Int)) with
  | some e => e.2
  | none => ""

/-- The array `tokens`. -/
def tokens : List String :=
  (List.range (keyedLen tokenEntries)).map (keyedAt tokenEntries)

/-! ## `strconv.Itoa` -/

/-- Decimal representation of an integer, with a leading `-` when negative
(the standard library's `strconv.Itoa`). -/
def Itoa (n : Int) : String :=
  if n < 0 then "-" ++ Nat.repr n.natAbs else Nat.repr n.toNat

/-! ## `Token.String` -/

/-- Go `func (tok Token) String() string`. The index into `tokens` is taken only
under the bounds guard, which is what makes it a valid index. -/
def Token.String (tok : Int) : String :=
  let s := if h : 0 ≤ tok ∧ tok < (tokens.length : Int)
    then tokens.get ⟨tok.toNat, by omega⟩ else ""
  if s = "" then "token(" ++ Itoa tok ++ ")" else s

/-! ## Precedence -/

def LowestPrec : Int := 0
def UnaryPrec : Int := 6
def HighestPrec : Int := 7

/-- Go `func (op Token) Precedence() int`: the `switch` tried case by case in
source order. -/
def Token.Precedence (op : Int) : Int :=
  if op = LOR then 1
  else if op = LAND then 2
  else if op = EQL ∨ op = NEQ ∨ op = LSS ∨ op = LEQ ∨ op = GTR ∨ op = GEQ then 3
  else if op = ADD ∨ op = SUB ∨ op = OR ∨ op = XOR then 4
  else if op = MUL ∨ op = QUO ∨ op = REM ∨ op = SHL ∨ op = SHR ∨ op = AND then 5
  else LowestPrec

/-! ## The keyword map -/

/-- Go `map[string]Token` as an association list with unique keys. -/
abbrev KeywordMap := List (String × Int)

/-- Map assignment `m[k] = v`: replaces the value of an existing key, adds a new
key otherwise. -/
def mapSet (m : KeywordMap) (k : String) (v : Int) : KeywordMap :=
  match m with
  | [] => [(k, v)]
  | (k', v') :: rest => if k' = k then (k, v) :: rest else (k', v') :: mapSet rest k v

/-- Map read `v, ok := m[k]` (`none` when `ok` is false). -/
def mapGet (m : KeywordMap) (k : String) : Option Int :=
  match m with
  | [] => none
  | (k', v') :: rest => if k' = k then some v' else mapGet rest k

/-- How a run of `init` ends: normally with the map built, by the run-time
panic of an out-of-range index into `tokens`, or with the iteration budget of
the model used up before the loop condition turned false. -/
inductive InitResult where
  | done (m : KeywordMap)
  | indexPanic (i : Int)
  | outOfFuel
  deriving DecidableEq

/-- The loop of `init`: `for i := lo; i < keyword_end; i++ { keywords[tokens[i]] = i }`,
with `fuel` bounding the number of iterations. -/
def initLoop (fuel : Nat) (i : Int) (m : KeywordMap) : InitResult :=
  if i < keyword_end then
    match fuel with
    | 0 => InitResult.outOfFuel
    | fuel + 1 =>
      if h : 0 ≤ i ∧ i < (tokens.length : Int) then
        initLoop fuel (i + 1) (mapSet m (tokens.get ⟨i.toNat, by omega⟩) i)
      else InitResult.indexPanic i
  else InitResult.done m

/-- Go `func init()`: `keywords = make(map[string]Token, ...)` followed by the loop
from `keyword_beg + 1`. One hundred iterations are allowed for. -/
def init : InitResult :=
  initLoop 100 (keyword_beg + 1) []

/-- The package variable `keywords` after `init` has run (the map stays `nil`,
that is empty for reads, if `init` does not complete). -/
def keywords : KeywordMap :=
  match init with
  | InitResult.done m => m
  | _ => []

/-- Go `func Lookup(ident string) Token`. -/
def Lookup (ident : String) : Int :=
  match mapGet keywords ident with
  | some tok => tok
  | none => IDENT

/-! ## Predicates -/

/-- Go `func (tok Token) IsLiteral() bool`. -/
def Token.IsLiteral (tok : Int) : Bool :=
  decide (literal_beg < tok) && decide (tok < literal_end)

/-- Go `func (tok Token) IsOperator() bool`. -/
def Token.IsOperator (tok : Int) : Bool :=
  decide (operator_beg < tok) && decide (tok < operator_end)

/-- Go `func (tok Token) IsKeyword() bool`. -/
def Token.IsKeyword (tok : Int) : Bool :=
  decide (keyword_beg < tok) && decide (tok < keyword_end)

/-- Go `func IsKeyword(name string) bool` (the string predicate). -/
def IsKeyword (name : String) : Bool :=
  match mapGet keywords name with
  | some _ => true
  | none => false

/-! ## Identifier and export predicates -/

/-- The predicates of Go's `unicode` package that the source calls
(`unicode.IsLetter`, `unicode.IsDigit`, `unicode.IsUpper`). They belong to the
standard library, not to this package, and are taken as a parameter. -/
structure Unicode where
  IsLetter : Char → Bool
  IsDigit : Char → Bool
  IsUpper : Char → Bool

/-- The rune `utf8.RuneError`, U+FFFD. -/
def RuneError : Char := Char.ofNat 65533

/-- Go `utf8.DecodeRuneInString`: the first rune of the string and its width in
bytes, `(RuneError, 0)` for the empty string. -/
def DecodeRuneInString (s : String) : Char × Nat :=
  match s.data with
  | [] => (RuneError, 0)
  | c :: _ => (c, c.utf8Size)

/-- Go `func IsExported(name string) bool`. -/
def IsExported (U : Unicode) (name : String) : Bool :=
  U.IsUpper (DecodeRuneInString name).1

/-- The loop `for i, c := range name` of `IsIdentifier`, from byte offset `i` on:
`false` at the first rune that is rejected, `true` when the runes are used up. -/
def identLoop (U : Unicode) (i : Nat) (cs : List Char) : Bool :=
  match cs with
  | [] => true
  | c :: rest =>
    if !U.IsLetter c && c != '_' && (i == 0 || !U.IsDigit c) then false
    else identLoop U (i + c.utf8Size) rest

/-- Go `func IsIdentifier(name string) bool`. -/
def IsIdentifier (U : Unicode) (name : String) : Bool :=
  if name = "" ∨ IsKeyword name = true then false
  else identLoop U 0 name.data

/-- A sample `Unicode` parameter: the ASCII letters, digits and capitals. -/
def asciiUnicode : Unicode :=
  ⟨Char.isAlpha, Char.isDigit, Char.isUpper⟩

/-- Reading a map with `IDENT` as the answer for an absent key, as `Lookup`
does on `keywords`. -/
def getOrIdent (m : KeywordMap) (s : String) : Int :=
  match mapGet m s with
  | some tok => tok
  | none => IDENT

/-! ## Specification-side definitions -/

/-- The keyword resolution the specification describes: each of the 22 keyword
spellings, compared exactly, gives its kind; any other text gives `IDENT`. -/
def lookupSpec (s : String) : Int :=
  if s = "break" then BREAK
  else if s = "case" then CASE
  else if s = "const" then CONST
  else if s = "continue" then CONTINUE
  else if s = "default" then DEFAULT
  else if s = "defer" then DEFER
  else if s = "else" then ELSE
  else if s = "fallthrough" then FALLTHROUGH
  else if s = "for" then FOR
  else if s = "while" then WHILE
  else if s = "func" then FUNC
  else if s = "if" then IF
  else if s = "import" then IMPORT
  else if s = "interface" then INTERFACE
  else if s = "map" then MAP
  else if s = "package" then PACKAGE
  else if s = "range" then RANGE
  else if s = "return" then RETURN
  else if s = "struct" then STRUCT
  else if s = "switch" then SWITCH
  else if s = "type" then TYPE
  else if s = "var" then VAR
  else IDENT

/-- The binary operators the specification ranks, lowest level first:
logical-or; logical-and; the comparisons; additive, bitwise-or and xor;
multiplicative, shifts and bitwise-and. -/
def binaryOperators : List Int :=
  [LOR, LAND, EQL, NEQ, LSS, LEQ, GTR, GEQ, ADD, SUB, OR, XOR,
   MUL, QUO, REM, SHL, SHR, AND]

/-- The three special kinds at the low end of the enumeration. -/
def specialKinds : List Int := [ILLEGAL, EOF, COMMENT]

/-- The six range sentinels. -/
def rangeSentinels : List Int :=
  [literal_beg, literal_end, operator_beg, operator_end, keyword_beg, keyword_end]

/-- All eight sentinels of the enumeration: the range sentinels and the two
bounds of the empty range of additional tokens. -/
def allSentinels : List Int :=
  rangeSentinels ++ [additional_beg, additional_end]

/-- The number of groups of the specification (special, literal, operator,
keyword) that a token value belongs to. -/
def groupCount (k : Int) : Nat :=
  (if k ∈ specialKinds then 1 else 0) + (if Token.IsLiteral k then 1 else 0) +
  (if Token.IsOperator k then 1 else 0) + (if Token.IsKeyword k then 1 else 0)

/-! ## Evaluation of the tables -/

set_option maxRecDepth 100000

theorem tokens_length : tokens.length = 79 := by decide

theorem keywords_eq :
    keywords =
      [("break", 57), ("case", 58), ("const", 59), ("continue", 60), ("default", 61),
       ("defer", 62), ("else", 63), ("fallthrough", 64), ("for", 65), ("while", 66),
       ("func", 67), ("if", 68), ("import", 69), ("interface", 70), ("map", 71),
       ("package", 72), ("range", 73), ("return", 74), ("struct", 75), ("switch", 76),
       ("type", 77), ("var", 78)] := by
  decide

/-- A successful map read returns a pair stored in the map. -/
theorem mapGet_mem (m : KeywordMap) (k : String) (v : Int) (h : mapGet m k = some v) :
    (k, v) ∈ m := by
  induction m with
  | nil => simp [mapGet] at h
  | cons p rest ih =>
    obtain ⟨k', v'⟩ := p
    unfold mapGet at h
    split at h
    · rename_i hk
      simp only [Option.some.injEq] at h
      subst hk; subst h
      exact List.mem_cons_self _ _
    · exact List.mem_cons_of_mem _ (ih h)

/-- Every pair of the keyword map is a keyword kind with its own spelling. -/
theorem keywords_entries :
    ∀ p ∈ keywords, p.2 ≠ IDENT ∧ Token.IsKeyword p.2 = true ∧ Token.String p.2 = p.1 := by
  decide

/-- Every kind of the keyword range is stored under its spelling. -/
theorem keyword_range_lookup :
    ∀ n : Fin 22, Lookup (Token.String (57 + (n.val : Int))) = 57 + (n.val : Int) := by
  decide

theorem getOrIdent_nil (s : String) : getOrIdent [] s = IDENT := rfl

theorem getOrIdent_cons (k : String) (v : Int) (m : KeywordMap) (s : String) :
    getOrIdent ((k, v) :: m) s = if s = k then v else getOrIdent m s := by
  unfold getOrIdent
  by_cases h : s = k
  · subst h; simp [mapGet]
  · have h2 : ¬ k = s := fun e => h e.symm
    simp [mapGet, h, h2]

/-- The keyword map resolves every string as the specification describes. -/
theorem Lookup_lookupSpec (s : String) : Lookup s = lookupSpec s := by
  have e : Lookup s = getOrIdent keywords s := rfl
  rw [e, keywords_eq]
  simp only [getOrIdent_cons, getOrIdent_nil]
  rfl

/-! ## Keyword resolution -/

/-- C1: for every token kind `k` in the keyword range (`k.IsKeyword()` true),
looking up the spelling of `k` gives `k` back. -/
theorem Lookup_String_roundtrip (k : Int) (hk : Token.IsKeyword k = true) :
    Lookup (Token.String k) = k := by
  simp only [Token.IsKeyword, keyword_beg, keyword_end, Bool.and_eq_true,
    decide_eq_true_eq] at hk
  have h := keyword_range_lookup ⟨(k - 57).toNat, by omega⟩
  have e : (57 : Int) + (((k - 57).toNat : Nat) : Int) = k := by omega
  simp only [e] at h
  exact h

theorem Lookup_String_roundtrip_witness :
    Token.IsKeyword WHILE = true ∧ Lookup (Token.String WHILE) = WHILE :=
  ⟨by decide, Lookup_String_roundtrip WHILE (by decide)⟩

/-- C2: for every string `s`, `Lookup s` is the keyword kind when `s` is exactly
one of the 22 keyword spellings and `IDENT` for every other string; in
particular the empty string, differently cased or extended spellings and the
removed Go keywords resolve to `IDENT`. -/
theorem Lookup_eq_lookupSpec :
    (∀ s : String, Lookup s = lookupSpec s) ∧
    Lookup "break" = BREAK ∧ Lookup "while" = WHILE ∧ Lookup "var" = VAR ∧
    Lookup "" = IDENT ∧ Lookup "While" = IDENT ∧ Lookup "FOR" = IDENT ∧
    Lookup "whilex" = IDENT ∧ Lookup "goto" = IDENT ∧ Lookup "chan" = IDENT ∧
    Lookup "select" = IDENT ∧ Lookup "go" = IDENT := by
  refine ⟨Lookup_lookupSpec, ?_, ?_, ?_, ?_, ?_, ?_, ?_, ?_, ?_, ?_, ?_⟩ <;>
    (rw [Lookup_lookupSpec]; decide)

/-- C3: for every string `s`, the string predicate `IsKeyword s` holds exactly
when `Lookup s` is not `IDENT`. -/
theorem IsKeyword_iff_Lookup_ne_IDENT (s : String) :
    IsKeyword s = true ↔ Lookup s ≠ IDENT := by
  unfold IsKeyword Lookup
  cases h : mapGet keywords s with
  | none => simp
  | some v =>
    have := (keywords_entries (s, v) (mapGet_mem _ _ _ h)).1
    simpa using this

/-- C4: for every string `s` that is a keyword spelling (`IsKeyword s` true), the
kind it resolves to is spelled `s`; in particular for `"for"`. -/
theorem String_Lookup_roundtrip (s : String) (hs : IsKeyword s = true) :
    Token.String (Lookup s) = s := by
  unfold IsKeyword at hs
  unfold Lookup
  cases h : mapGet keywords s with
  | none => simp [h] at hs
  | some v => exact (keywords_entries (s, v) (mapGet_mem _ _ _ h)).2.2

theorem String_Lookup_roundtrip_witness :
    IsKeyword "for" = true ∧ Token.String (Lookup "for") = "for" :=
  ⟨by decide, String_Lookup_roundtrip "for" (by decide)⟩

/-! ## Precedence -/

/-- C5: `Precedence` is 1 for `LOR`, 2 for `LAND`, 3 for the six comparisons,
4 for `ADD SUB OR XOR`, 5 for `MUL QUO REM SHL SHR AND`, and 0 (`LowestPrec`)
for every other value: unary operators, `ASSIGN`, `DEFINE`, the compound
assignments, delimiters, literals, keywords, special kinds, sentinels and
integers outside the enumeration. -/
theorem Precedence_table (k : Int) :
    (k = LOR → Token.Precedence k = 1) ∧
    (k = LAND → Token.Precedence k = 2) ∧
    (k ∈ [EQL, NEQ, LSS, LEQ, GTR, GEQ] → Token.Precedence k = 3) ∧
    (k ∈ [ADD, SUB, OR, XOR] → Token.Precedence k = 4) ∧
    (k ∈ [MUL, QUO, REM, SHL, SHR, AND] → Token.Precedence k = 5) ∧
    (k ∉ [LOR, LAND, EQL, NEQ, LSS, LEQ, GTR, GEQ, ADD, SUB, OR, XOR,
          MUL, QUO, REM, SHL, SHR, AND] → Token.Precedence k = LowestPrec) ∧
    (k ∈ [NOT, LNOT, INC, DEC, ASSIGN, DEFINE,
          ADD_ASSIGN, SUB_ASSIGN, MUL_ASSIGN, QUO_ASSIGN, REM_ASSIGN,
          AND_ASSIGN, OR_ASSIGN, XOR_ASSIGN, SHL_ASSIGN, SHR_ASSIGN,
          ELLIPSIS, LPAREN, LBRACK, LBRACE, COMMA, PERIOD,
          RPAREN, RBRACK, RBRACE, SEMICOLON, COLON,
          ILLEGAL, EOF, COMMENT,
          literal_beg, literal_end, operator_beg, operator_end,
          keyword_beg, keyword_end, additional_beg, additional_end] ∨
      Token.IsLiteral k = true ∨ Token.IsKeyword k = true ∨
      k < ILLEGAL ∨ additional_end < k → Token.Precedence k = 0) := by
  simp only [Token.Precedence, Token.IsLiteral, Token.IsKeyword, LowestPrec,
    ILLEGAL, EOF, COMMENT, literal_beg, IDENT, INT, FLOAT, STRING, literal_end,
    operator_beg, ADD, SUB, MUL, QUO, REM, AND, OR, XOR, SHL, SHR, NOT,
    ADD_ASSIGN, SUB_ASSIGN, MUL_ASSIGN, QUO_ASSIGN, REM_ASSIGN, AND_ASSIGN,
    OR_ASSIGN, XOR_ASSIGN, SHL_ASSIGN, SHR_ASSIGN, LAND, LOR, INC, DEC, EQL, LSS,
    GTR, ASSIGN, LNOT, NEQ, LEQ, GEQ, DEFINE, ELLIPSIS, LPAREN, LBRACK, LBRACE,
    COMMA, PERIOD, RPAREN, RBRACK, RBRACE, SEMICOLON, COLON, operator_end,
    keyword_beg, keyword_end, additional_beg, additional_end,
    List.mem_cons, List.mem_singleton, List.not_mem_nil, or_false,
    Bool.and_eq_true, decide_eq_true_eq]
  refine ⟨?_, ?_, ?_, ?_, ?_, ?_, ?_⟩ <;> intro h <;> split_ifs <;> omega

theorem Precedence_table_witness :
    MUL ∈ [MUL, QUO, REM, SHL, SHR, AND] ∧ Token.Precedence MUL = 5 :=
  ⟨by decide, (Precedence_table MUL).2.2.2.2.1 (by decide)⟩

/-- Every listed binary operator has a precedence between 1 and 5. -/
theorem binaryOperators_ranked :
    ∀ k ∈ binaryOperators, 1 ≤ Token.Precedence k ∧ Token.Precedence k ≤ 5 := by
  decide

/-- C6, as stated, fails: no set of exactly 16 token values is the set of
values on which `Precedence` lies in 1..5. -/
theorem Precedence_not_sixteen :
    ¬ ∃ S : Finset Int, S.card = 16 ∧
        ∀ k : Int, k ∈ S ↔ (1 ≤ Token.Precedence k ∧ Token.Precedence k ≤ 5) := by
  rintro ⟨S, hcard, hS⟩
  have hsub : binaryOperators.toFinset ⊆ S := by
    intro k hk
    exact (hS k).2 (binaryOperators_ranked k (List.mem_toFinset.1 hk))
  have h18 : binaryOperators.toFinset.card = 18 := by decide
  have := Finset.card_le_card hsub
  omega

/-- C6, amended: `Precedence` returns a value in 1..5 for exactly 18 token
kinds, the listed binary operators, and 0 for every other token value. -/
theorem Precedence_eighteen (k : Int) :
    binaryOperators.length = 18 ∧ binaryOperators.Nodup ∧
    (k ∈ binaryOperators → 1 ≤ Token.Precedence k ∧ Token.Precedence k ≤ 5) ∧
    (k ∉ binaryOperators → Token.Precedence k = 0) := by
  refine ⟨by decide, by decide, ?_, ?_⟩
  all_goals
    simp only [binaryOperators, Token.Precedence, LowestPrec,
      ADD, SUB, MUL, QUO, REM, AND, OR, XOR, SHL, SHR, LAND, LOR, EQL, LSS,
      GTR, NEQ, LEQ, GEQ, List.mem_cons, List.mem_singleton, List.not_mem_nil, or_false]
    intro h
    split_ifs <;> omega

theorem Precedence_eighteen_witness :
    (SHL ∈ binaryOperators ∧ 1 ≤ Token.Precedence SHL ∧ Token.Precedence SHL ≤ 5) ∧
    (NOT ∉ binaryOperators ∧ Token.Precedence NOT = 0) :=
  ⟨⟨by decide, (Precedence_eighteen SHL).2.2.1 (by decide)⟩,
   ⟨by decide, (Precedence_eighteen NOT).2.2.2 (by decide)⟩⟩

/-- C7: the levels are strictly ordered: multiplication above addition above
equality above logical-and above logical-or above 0. -/
theorem Precedence_chain :
    Token.Precedence MUL > Token.Precedence ADD ∧
    Token.Precedence ADD > Token.Precedence EQL ∧
    Token.Precedence EQL > Token.Precedence LAND ∧
    Token.Precedence LAND > Token.Precedence LOR ∧
    Token.Precedence LOR > 0 := by
  decide

/-! ## Classification -/

/-- C8: for every token value `k`, at most one of `IsLiteral`, `IsOperator`,
`IsKeyword` is true, and for `ILLEGAL`, `EOF`, `COMMENT` none is. -/
theorem predicates_exclusive (k : Int) :
    ¬ (Token.IsLiteral k = true ∧ Token.IsOperator k = true) ∧
    ¬ (Token.IsLiteral k = true ∧ Token.IsKeyword k = true) ∧
    ¬ (Token.IsOperator k = true ∧ Token.IsKeyword k = true) ∧
    (k ∈ specialKinds →
      Token.IsLiteral k = false ∧ Token.IsOperator k = false ∧ Token.IsKeyword k = false) := by
  simp only [Token.IsLiteral, Token.IsOperator, Token.IsKeyword, specialKinds,
    ILLEGAL, EOF, COMMENT, literal_beg, literal_end, operator_beg, operator_end,
    keyword_beg, keyword_end, Bool.and_eq_true, decide_eq_true_eq,
    Bool.and_eq_false_iff, decide_eq_false_iff_not,
    List.mem_cons, List.mem_singleton, List.not_mem_nil, or_false]
  refine ⟨?_, ?_, ?_, ?_⟩
  · omega
  · omega
  · omega
  · intro h
    refine ⟨?_, ?_, ?_⟩ <;> omega

theorem predicates_exclusive_witness :
    EOF ∈ specialKinds ∧
    Token.IsLiteral EOF = false ∧ Token.IsOperator EOF = false ∧ Token.IsKeyword EOF = false :=
  ⟨by decide, (predicates_exclusive EOF).2.2.2 (by decide)⟩

/-! ## Spelling -/

/-- Every index of the table below `keyword_end`, the sentinels apart, holds the
string written for it in the literal; that string is not empty and does not
begin like the fallback. -/
theorem tokens_filled :
    ∀ n : Fin 79, (n.val : Int) ∈ [literal_beg, literal_end, operator_beg,
        operator_end, keyword_beg] ∨
      (((n.val : Int), Token.String (n.val : Int)) ∈ tokenEntries ∧
        Token.String (n.val : Int) ≠ "" ∧
        ¬ List.IsPrefix "token(".toList (Token.String (n.val : Int)).toList) := by
  decide

/-- C9: `String` is total, and for every token value `k` outside the index
range of the spelling table (`k < 0` or `k ≥ len(tokens)`) the result is
`"token("`, the decimal representation of `k`, `")"`; in particular for 9999
and for -1. -/
theorem String_fallback :
    (∀ k : Int, k < 0 ∨ (tokens.length : Int) ≤ k →
      Token.String k = "token(" ++ Itoa k ++ ")") ∧
    Token.String 9999 = "token(9999)" ∧ Token.String (-1) = "token(-1)" := by
  refine ⟨?_, by decide, by decide⟩
  intro k hk
  have hg : ¬ (0 ≤ k ∧ k < (tokens.length : Int)) := by omega
  simp [Token.String, hg]

theorem String_fallback_witness :
    ((100 : Int) < 0 ∨ (tokens.length : Int) ≤ 100) ∧
    Token.String 100 = "token(" ++ Itoa 100 ++ ")" :=
  ⟨by decide, String_fallback.1 100 (by decide)⟩

/-- C10: for every kind `k` that is special, literal, operator or keyword,
`String` gives the string written for `k` in the table literal, which is not
empty and is not the `token(<n>)` fallback: the surface syntax for operators,
delimiters and keywords, the constant name for special and literal kinds. -/
theorem String_table (k : Int) :
    (k ∈ specialKinds ∨ Token.IsLiteral k = true ∨ Token.IsOperator k = true ∨
        Token.IsKeyword k = true →
      (k, Token.String k) ∈ tokenEntries ∧ Token.String k ≠ "" ∧
      Token.String k ≠ "token(" ++ Itoa k ++ ")" ∧
      ¬ List.IsPrefix "token(".toList (Token.String k).toList) ∧
    Token.String ADD = "+" ∧ Token.String MUL = "*" ∧ Token.String LPAREN = "(" ∧
    Token.String RPAREN = ")" ∧ Token.String SEMICOLON = ";" ∧
    Token.String NOT = "~" ∧ Token.String WHILE = "while" ∧
    Token.String ILLEGAL = "ILLEGAL" ∧ Token.String EOF = "EOF" ∧
    Token.String COMMENT = "COMMENT" ∧ Token.String IDENT = "IDENT" ∧
    Token.String INT = "INT" ∧ Token.String FLOAT = "FLOAT" ∧
    Token.String STRING = "STRING" := by
  refine ⟨?_, by decide⟩
  intro hk
  simp only [specialKinds, Token.IsLiteral, Token.IsOperator, Token.IsKeyword,
    ILLEGAL, EOF, COMMENT, literal_beg, literal_end, operator_beg, operator_end,
    keyword_beg, keyword_end, Bool.and_eq_true, decide_eq_true_eq,
    List.mem_cons, List.mem_singleton, List.not_mem_nil, or_false] at hk
  have e : (((k.toNat : Nat) : Int)) = k := by omega
  have h := tokens_filled ⟨k.toNat, by omega⟩
  simp only [e, literal_beg, literal_end, operator_beg, operator_end, keyword_beg,
    List.mem_cons, List.mem_singleton, List.not_mem_nil, or_false] at h
  rcases h with h | ⟨h1, h2, h3⟩
  · omega
  · refine ⟨h1, h2, ?_, h3⟩
    intro hEq
    apply h3
    rw [hEq]
    exact ⟨(Itoa k ++ ")").toList, by simp⟩

theorem String_table_witness :
    (SEMICOLON ∈ specialKinds ∨ Token.IsLiteral SEMICOLON = true ∨
        Token.IsOperator SEMICOLON = true ∨ Token.IsKeyword SEMICOLON = true) ∧
    (SEMICOLON, Token.String SEMICOLON) ∈ tokenEntries :=
  ⟨by decide, ((String_table SEMICOLON).1 (by decide)).1⟩

/-! ## Range sentinels and the order of the categories -/

/-- C13: each of the six range sentinels has no display string (`String` gives
the `token(<n>)` fallback with the sentinel's own value) and is matched by
none of `IsLiteral`, `IsOperator`, `IsKeyword`. -/
theorem sentinels_unnamed :
    (∀ k ∈ rangeSentinels,
      Token.String k = "token(" ++ Itoa k ++ ")" ∧
      Token.IsLiteral k = false ∧ Token.IsOperator k = false ∧
      Token.IsKeyword k = false) ∧
    Token.String literal_beg = "token(3)" ∧ Token.String literal_end = "token(8)" ∧
    Token.String operator_beg = "token(9)" ∧ Token.String operator_end = "token(55)" ∧
    Token.String keyword_beg = "token(56)" ∧ Token.String keyword_end = "token(79)" := by
  decide

theorem sentinels_unnamed_witness :
    keyword_end ∈ rangeSentinels ∧
    Token.String keyword_end = "token(" ++ Itoa keyword_end ++ ")" :=
  ⟨by decide, (sentinels_unnamed.1 keyword_end (by decide)).1⟩

/-- C14: the categories are ordered special < literal < operator < keyword, and
each is contiguous: a value strictly between two members of a category is a
member of it. -/
theorem categories_ordered (a b c d : Int)
    (ha : a ∈ specialKinds) (hb : Token.IsLiteral b = true)
    (hc : Token.IsOperator c = true) (hd : Token.IsKeyword d = true) :
    (0 ≤ a ∧ a < b ∧ b < c ∧ c < d) ∧
    (∀ x y z : Int, x < y → y < z →
      (x ∈ specialKinds → z ∈ specialKinds → y ∈ specialKinds) ∧
      (Token.IsLiteral x = true → Token.IsLiteral z = true → Token.IsLiteral y = true) ∧
      (Token.IsOperator x = true → Token.IsOperator z = true →
        Token.IsOperator y = true) ∧
      (Token.IsKeyword x = true → Token.IsKeyword z = true →
        Token.IsKeyword y = true)) := by
  simp only [Token.IsLiteral, Token.IsOperator, Token.IsKeyword, specialKinds,
    ILLEGAL, EOF, COMMENT, literal_beg, literal_end, operator_beg, operator_end,
    keyword_beg, keyword_end, Bool.and_eq_true, decide_eq_true_eq,
    List.mem_cons, List.mem_singleton, List.not_mem_nil, or_false] at *
  refine ⟨by omega, ?_⟩
  intro x y z hxy hyz
  refine ⟨?_, ?_, ?_, ?_⟩ <;> intro hx hz <;> omega

theorem categories_ordered_witness :
    (0 ≤ COMMENT ∧ COMMENT < IDENT ∧ IDENT < COLON ∧ COLON < BREAK) :=
  (categories_ordered COMMENT IDENT COLON BREAK (by decide) (by decide) (by decide)
    (by decide)).1

/-- C19: only operator kinds carry a binary precedence: a token value with
non-zero `Precedence` satisfies `IsOperator`. -/
theorem Precedence_only_operators (k : Int) (h : Token.Precedence k ≠ 0) :
    Token.IsOperator k = true := by
  simp only [Token.Precedence, Token.IsOperator, LowestPrec, operator_beg,
    operator_end, ADD, SUB, MUL, QUO, REM, AND, OR, XOR, SHL, SHR, LAND, LOR,
    EQL, LSS, GTR, NEQ, LEQ, GEQ, Bool.and_eq_true, decide_eq_true_eq] at *
  split_ifs at h <;> omega

theorem Precedence_only_operators_witness :
    Token.Precedence LAND ≠ 0 ∧ Token.IsOperator LAND = true :=
  ⟨by decide, Precedence_only_operators LAND (by decide)⟩

/-- C17: `UnaryPrec` (6) and `HighestPrec` (7) lie strictly above every
precedence: `LowestPrec ≤ Precedence k < UnaryPrec < HighestPrec` for every
token value `k`. -/
theorem Precedence_below_unary (k : Int) :
    UnaryPrec = 6 ∧ HighestPrec = 7 ∧
    LowestPrec ≤ Token.Precedence k ∧ Token.Precedence k < UnaryPrec ∧
    UnaryPrec < HighestPrec := by
  simp only [Token.Precedence, LowestPrec, UnaryPrec, HighestPrec]
  refine ⟨trivial, trivial, ?_, ?_, by omega⟩ <;> split_ifs <;> omega

/-- C15, as stated, fails: not every value from 0 up to the largest declared
one lies in exactly one of the four groups; `literal_beg` lies in none. -/
theorem partition_misses_sentinel :
    ¬ ∀ k : Int, 0 ≤ k → k ≤ additional_end → groupCount k = 1 := by
  intro h
  have h3 := h literal_beg (by decide) (by decide)
  revert h3
  decide

/-- C15, amended: every value from 0 up to the largest declared one that is not
one of the eight sentinels lies in exactly one of the four groups, and each
sentinel lies in none. -/
theorem partition_apart_from_sentinels (k : Int) (h0 : 0 ≤ k)
    (h1 : k ≤ additional_end) :
    (k ∉ allSentinels → groupCount k = 1) ∧ (k ∈ allSentinels → groupCount k = 0) := by
  have key : ∀ n : Fin 82,
      (((n.val : Int)) ∉ allSentinels → groupCount (n.val : Int) = 1) ∧
      (((n.val : Int)) ∈ allSentinels → groupCount (n.val : Int) = 0) := by
    decide
  simp only [additional_end] at h1
  have e : (((k.toNat : Nat) : Int)) = k := by omega
  have h := key ⟨k.toNat, by omega⟩
  simp only [e] at h
  exact h

theorem partition_apart_from_sentinels_witness :
    (SEMICOLON ∉ allSentinels ∧ groupCount SEMICOLON = 1) ∧
    (keyword_beg ∈ allSentinels ∧ groupCount keyword_beg = 0) :=
  ⟨⟨by decide,
    (partition_apart_from_sentinels SEMICOLON (by decide) (by decide)).1 (by decide)⟩,
   ⟨by decide,
    (partition_apart_from_sentinels keyword_beg (by decide) (by decide)).2 (by decide)⟩⟩

/-! ## The keyword table -/

/-- Allowing the loop of `init` one more iteration does not change a completed run. -/
theorem initLoop_succ (fuel : Nat) : ∀ (i : Int) (m r : KeywordMap),
    initLoop fuel i m = InitResult.done r → initLoop (fuel + 1) i m = InitResult.done r := by
  induction fuel with
  | zero =>
    intro i m r h
    unfold initLoop at h ⊢
    split_ifs at h ⊢ with h1
    exact h
  | succ n ih =>
    intro i m r h
    unfold initLoop at h ⊢
    split_ifs at h ⊢ with h1 h2
    · exact ih _ _ _ h
    · exact h

/-- The loop of `init` completes with the map `keywords` whenever at least 22
iterations are allowed for. -/
theorem initLoop_enough (fuel : Nat) (h : 22 ≤ fuel) :
    initLoop fuel (keyword_beg + 1) [] = InitResult.done keywords := by
  induction fuel, h using Nat.le_induction with
  | base => decide
  | succ n _ ih => exact initLoop_succ n _ _ _ ih

/-- Inside the keyword range the table has an entry, which is not empty and
differs from the entry of every other index of the range. -/
theorem keyword_spellings_distinct :
    ∀ n : Fin 22, ∃ s, tokens[57 + n.val]? = some s ∧ s ≠ "" ∧
      ∀ l : Fin 22, l ≠ n → tokens[57 + l.val]? ≠ some s := by
  decide

/-- C20: the construction of the keyword table in `init` stays inside the
spelling table and inserts no empty and no duplicate key: the table length is
`keyword_end`; every index strictly between `keyword_beg` and `keyword_end`
has an entry, not empty and different from the entry of every other index of
that range; the loop completes, and the map has
`keyword_end - keyword_beg - 1 = 22` entries. -/
theorem init_safe :
    (tokens.length : Int) = keyword_end ∧
    (∀ i : Int, keyword_beg < i → i < keyword_end →
      0 ≤ i ∧ i < (tokens.length : Int) ∧
      ∃ s, tokens[i.toNat]? = some s ∧ s ≠ "" ∧
        ∀ j : Int, keyword_beg < j → j < keyword_end → j ≠ i →
          tokens[j.toNat]? ≠ some s) ∧
    (∀ fuel : Nat, 22 ≤ fuel →
      ∃ m, initLoop fuel (keyword_beg + 1) [] = InitResult.done m ∧ m.length = 22) ∧
    (∃ m, init = InitResult.done m ∧ keywords = m ∧ m.length = 22 ∧
      (m.map Prod.fst).Nodup ∧ ∀ p ∈ m, p.1 ≠ "") ∧
    keyword_end - keyword_beg - 1 = 22 := by
  refine ⟨by decide, ?_, ?_, ?_, by decide⟩
  · intro i h1 h2
    simp only [keyword_beg, keyword_end] at h1 h2
    rw [tokens_length]
    refine ⟨by omega, by omega, ?_⟩
    obtain ⟨s, hs, hne, hd⟩ := keyword_spellings_distinct ⟨(i - 57).toNat, by omega⟩
    have e : 57 + (i - 57).toNat = i.toNat := by omega
    simp only [e] at hs
    refine ⟨s, hs, hne, ?_⟩
    intro j hj1 hj2 hji
    simp only [keyword_beg, keyword_end] at hj1 hj2
    have := hd ⟨(j - 57).toNat, by omega⟩ (by
      intro hEq
      have := congrArg Fin.val hEq
      simp only at this
      omega)
    have e2 : 57 + (j - 57).toNat = j.toNat := by omega
    simpa only [e2] using this
  · intro fuel hf
    exact ⟨keywords, initLoop_enough fuel hf, by rw [keywords_eq]; decide⟩
  · refine ⟨keywords, initLoop_enough 100 (by decide), rfl, ?_, ?_, ?_⟩ <;>
      (rw [keywords_eq]; decide)

theorem init_safe_witness :
    ∃ s, tokens[FOR.toNat]? = some s ∧ s ≠ "" :=
  match (init_safe.2.1 FOR (by decide) (by decide)).2.2 with
  | ⟨s, hs, hne, _⟩ => ⟨s, hs, hne⟩

/-- C16: the keyword table holds exactly the kinds of the keyword range: a token
value `k` is a result of `Lookup` other than `IDENT` exactly when
`k.IsKeyword()` is true; every result of `Lookup` is `IDENT` or a keyword
kind; and exactly 22 kinds other than `IDENT` are reachable. -/
theorem keyword_table_exact :
    (∀ k : Int, ((∃ s : String, Lookup s = k) ∧ k ≠ IDENT) ↔ Token.IsKeyword k = true) ∧
    (∀ s : String, Lookup s = IDENT ∨ Token.IsKeyword (Lookup s) = true) ∧
    (∃ K : Finset Int, K.card = 22 ∧
      ∀ k : Int, k ∈ K ↔ ((∃ s : String, Lookup s = k) ∧ k ≠ IDENT)) := by
  have hres : ∀ s : String, Lookup s = IDENT ∨ Token.IsKeyword (Lookup s) = true := by
    intro s
    unfold Lookup
    cases h : mapGet keywords s with
    | none => exact Or.inl rfl
    | some v => exact Or.inr (keywords_entries (s, v) (mapGet_mem _ _ _ h)).2.1
  have hiff : ∀ k : Int,
      ((∃ s : String, Lookup s = k) ∧ k ≠ IDENT) ↔ Token.IsKeyword k = true := by
    intro k
    constructor
    · rintro ⟨⟨s, hs⟩, hk⟩
      rcases hres s with h | h
      · exact absurd (hs ▸ h) hk
      · exact hs ▸ h
    · intro hk
      have hk2 := hk
      simp only [Token.IsKeyword, keyword_beg, keyword_end, Bool.and_eq_true,
        decide_eq_true_eq] at hk2
      have h := keyword_range_lookup ⟨(k - 57).toNat, by omega⟩
      have e : (57 : Int) + (((k - 57).toNat : Nat) : Int) = k := by omega
      simp only [e] at h
      refine ⟨⟨Token.String k, h⟩, ?_⟩
      simp only [IDENT]
      omega
  refine ⟨hiff, hres, Finset.Ioo keyword_beg keyword_end, by decide, ?_⟩
  intro k
  rw [hiff k]
  simp only [Token.IsKeyword, Finset.mem_Ioo, Bool.and_eq_true, decide_eq_true_eq]

theorem keyword_table_exact_witness :
    Token.IsKeyword WHILE = true ∧ ((∃ s : String, Lookup s = WHILE) ∧ WHILE ≠ IDENT) :=
  ⟨by decide, (keyword_table_exact.1 WHILE).2 (by decide)⟩

/-! ## Identifiers and exported names -/

/-- From a positive byte offset on, the loop of `IsIdentifier` accepts exactly
the runs of letters, digits and underscores. -/
theorem identLoop_pos (U : Unicode) (cs : List Char) : ∀ i : Nat, 0 < i →
    (identLoop U i cs = true ↔
      ∀ c ∈ cs, U.IsLetter c = true ∨ U.IsDigit c = true ∨ c = '_') := by
  induction cs with
  | nil => intro i _; simp [identLoop]
  | cons c rest ih =>
    intro i hi
    have hne : (i == 0) = false := by simp; omega
    unfold identLoop
    rw [hne]
    have hrest := ih (i + c.utf8Size) (by omega)
    generalize identLoop U (i + c.utf8Size) rest = b at hrest ⊢
    by_cases h1 : U.IsLetter c = true <;> by_cases h2 : U.IsDigit c = true <;>
      by_cases h3 : c = '_' <;> simp [h1, h2, h3, hrest]

/-- At byte offset 0 the loop of `IsIdentifier` demands a letter or an
underscore first. -/
theorem identLoop_zero (U : Unicode) (c : Char) (rest : List Char) :
    (identLoop U 0 (c :: rest) = true ↔
      (U.IsLetter c = true ∨ c = '_') ∧
      ∀ d ∈ rest, U.IsLetter d = true ∨ U.IsDigit d = true ∨ d = '_') := by
  unfold identLoop
  have hrest := identLoop_pos U rest (0 + c.utf8Size) (by
    have := Char.utf8Size_pos c; omega)
  generalize identLoop U (0 + c.utf8Size) rest = b at hrest ⊢
  by_cases h1 : U.IsLetter c = true <;> by_cases h3 : c = '_' <;>
    simp [h1, h3, hrest]

/-- C11: `IsIdentifier s` is true exactly when `s` is non-empty, is not a keyword
spelling, starts with a letter or an underscore and continues with letters,
digits and underscores only; `""` and `"while"` are rejected, `"2x"` is
rejected as `2` is not a letter, `"_x9"` is accepted as `x` is a letter and `9`
a digit. -/
theorem IsIdentifier_iff (U : Unicode) :
    (∀ s : String, IsIdentifier U s = true ↔
      s ≠ "" ∧ IsKeyword s = false ∧
      (∀ c, s.data.head? = some c → U.IsLetter c = true ∨ c = '_') ∧
      (∀ d ∈ s.data.tail, U.IsLetter d = true ∨ U.IsDigit d = true ∨ d = '_')) ∧
    IsIdentifier U "" = false ∧
    (U.IsLetter '2' = false → IsIdentifier U "2x" = false) ∧
    (U.IsLetter 'x' = true → U.IsDigit '9' = true → IsIdentifier U "_x9" = true) ∧
    IsIdentifier U "while" = false := by
  have main : ∀ s : String, IsIdentifier U s = true ↔
      s ≠ "" ∧ IsKeyword s = false ∧
      (∀ c, s.data.head? = some c → U.IsLetter c = true ∨ c = '_') ∧
      (∀ d ∈ s.data.tail, U.IsLetter d = true ∨ U.IsDigit d = true ∨ d = '_') := by
    intro s
    unfold IsIdentifier
    by_cases he : s = ""
    · simp [he]
    by_cases hk : IsKeyword s = true
    · simp [hk]
    have hk2 : IsKeyword s = false := by simpa using hk
    obtain ⟨cs⟩ := s
    cases cs with
    | nil => exact absurd rfl he
    | cons c rest =>
      have hz := identLoop_zero U c rest
      simp only [he, hk, hk2, or_self, if_false]
      simp only [hz, ne_eq, he, not_false_eq_true, true_and, List.head?_cons,
        Option.some.injEq, forall_eq', List.tail_cons, Bool.false_eq_true, or_self,
        if_false]
  refine ⟨main, ?_, ?_, ?_, ?_⟩
  · simp [IsIdentifier]
  · intro h2
    have := (main "2x").not
    rw [Bool.not_eq_true] at this
    rw [this]
    intro h
    have := h.2.2.1 '2' rfl
    simp [h2] at this
  · intro hx h9
    rw [main]
    refine ⟨by decide, by decide, ?_, ?_⟩
    · intro c hc
      right
      simpa using hc.symm
    · intro d hd
      have : d = 'x' ∨ d = '9' := by simpa using hd
      rcases this with rfl | rfl
      · exact Or.inl hx
      · exact Or.inr (Or.inl h9)
  · have hw : IsKeyword "while" = true := by decide
    simp [IsIdentifier, hw]

theorem IsIdentifier_iff_witness :
    IsIdentifier asciiUnicode "2x" = false ∧ IsIdentifier asciiUnicode "_x9" = true :=
  ⟨(IsIdentifier_iff asciiUnicode).2.2.1 (by decide),
   (IsIdentifier_iff asciiUnicode).2.2.2.1 (by decide) (by decide)⟩

/-- C12: with `unicode.IsUpper` false on `utf8.RuneError`, `IsExported name` is
true exactly when `name` is non-empty and its first rune is an upper-case
letter; `"Foo"` is exported as `F` is upper case, `"foo"` and `"_Foo"` are not
as `f` and `_` are not, and `""` is not. -/
theorem IsExported_iff (U : Unicode) (hRE : U.IsUpper RuneError = false) :
    (∀ name : String, IsExported U name = true ↔
      name ≠ "" ∧ ∃ c, name.data.head? = some c ∧ U.IsUpper c = true) ∧
    (U.IsUpper 'F' = true → IsExported U "Foo" = true) ∧
    (U.IsUpper 'f' = false → IsExported U "foo" = false) ∧
    (U.IsUpper '_' = false → IsExported U "_Foo" = false) ∧
    IsExported U "" = false := by
  refine ⟨?_, fun h => h, fun h => h, fun h => h, hRE⟩
  intro name
  obtain ⟨cs⟩ := name
  cases cs with
  | nil =>
    have : IsExported U ⟨[]⟩ = false := hRE
    rw [this]
    simp
  | cons c rest =>
    have e : IsExported U ⟨c :: rest⟩ = U.IsUpper c := rfl
    have hne : (⟨c :: rest⟩ : String) ≠ "" := by
      intro h
      have := congrArg String.data h
      simp at this
    rw [e]
    simp [hne]

theorem IsExported_iff_witness :
    asciiUnicode.IsUpper RuneError = false ∧
    IsExported asciiUnicode "Foo" = true ∧ IsExported asciiUnicode "foo" = false ∧
    IsExported asciiUnicode "_Foo" = false ∧ IsExported asciiUnicode "" = false :=
  ⟨by decide, (IsExported_iff asciiUnicode (by decide)).2.1 (by decide),
   (IsExported_iff asciiUnicode (by decide)).2.2.1 (by decide),
   (IsExported_iff asciiUnicode (by decide)).2.2.2.1 (by decide),
   (IsExported_iff asciiUnicode (by decide)).2.2.2.2⟩

/-! ## Injectivity of the spelling -/

/-- The digits produced do not depend on the fuel once it exceeds the number. -/
theorem toDigitsCore_fuel (f1 : Nat) : ∀ (f2 n : Nat) (ds : List Char),
    n < f1 → n < f2 → Nat.toDigitsCore 10 f1 n ds = Nat.toDigitsCore 10 f2 n ds := by
  induction f1 with
  | zero => intro f2 n ds h; omega
  | succ k ih =>
    intro f2 n ds h1 h2
    cases f2 with
    | zero => omega
    | succ l =>
      simp only [Nat.toDigitsCore]
      split_ifs with h0
      · rfl
      · exact ih l (n / 10) _ (by omega) (by omega)

/-- Digits are put in front of the accumulator. -/
theorem toDigitsCore_acc (f : Nat) : ∀ (n : Nat) (ds : List Char),
    Nat.toDigitsCore 10 f n ds = Nat.toDigitsCore 10 f n [] ++ ds := by
  induction f with
  | zero => intro n ds; simp [Nat.toDigitsCore]
  | succ k ih =>
    intro n ds
    simp only [Nat.toDigitsCore]
    split_ifs with h0
    · simp
    · rw [ih (n / 10) (Nat.digitChar (n % 10) :: ds), ih (n / 10) [Nat.digitChar (n % 10)]]
      simp

/-- The decimal digits of `n`: those of `n / 10`, if any, then the last one. -/
theorem toDigits_step (n : Nat) :
    Nat.toDigits 10 n =
      (if n / 10 = 0 then [] else Nat.toDigits 10 (n / 10)) ++ [Nat.digitChar (n % 10)] := by
  unfold Nat.toDigits
  by_cases h0 : n / 10 = 0
  · simp [Nat.toDigitsCore, h0]
  · have h1 : Nat.toDigitsCore 10 (n + 1) n [] =
        Nat.toDigitsCore 10 n (n / 10) [Nat.digitChar (n % 10)] := by
      simp [Nat.toDigitsCore, h0]
    rw [if_neg h0, h1, toDigitsCore_acc,
      toDigitsCore_fuel n (n / 10 + 1) (n / 10) [] (by omega) (by omega)]

theorem toDigits_ne_nil (n : Nat) : Nat.toDigits 10 n ≠ [] := by
  rw [toDigits_step]
  simp

theorem digitChar_inj : ∀ a : Fin 10, ∀ b : Fin 10,
    Nat.digitChar a.val = Nat.digitChar b.val → a = b := by
  decide

theorem digitChar_ne_minus : ∀ a : Fin 10, Nat.digitChar a.val ≠ '-' := by
  decide

/-- Distinct numbers have distinct decimal digits. -/
theorem toDigits_inj (n : Nat) : ∀ m : Nat,
    Nat.toDigits 10 n = Nat.toDigits 10 m → n = m := by
  induction n using Nat.strong_induction_on with
  | _ n ih =>
    intro m h
    rw [toDigits_step n, toDigits_step m] at h
    have hp := List.append_inj_left' h rfl
    have hl := List.append_inj_right' h rfl
    simp only [List.cons.injEq, and_true] at hl
    have hmod : n % 10 = m % 10 := by
      have := digitChar_inj ⟨n % 10, Nat.mod_lt _ (by decide)⟩
        ⟨m % 10, Nat.mod_lt _ (by decide)⟩ hl
      exact congrArg Fin.val this
    by_cases hn : n / 10 = 0 <;> by_cases hm : m / 10 = 0
    · omega
    · rw [if_pos hn, if_neg hm] at hp
      exact absurd hp.symm (toDigits_ne_nil _)
    · rw [if_neg hn, if_pos hm] at hp
      exact absurd hp (toDigits_ne_nil _)
    · rw [if_neg hn, if_neg hm] at hp
      have := ih (n / 10) (by omega) (m / 10) hp
      omega

/-- No decimal digit of a number is a minus sign. -/
theorem toDigits_no_minus (n : Nat) : ∀ c ∈ Nat.toDigits 10 n, c ≠ '-' := by
  induction n using Nat.strong_induction_on with
  | _ n ih =>
    intro c hc
    rw [toDigits_step n] at hc
    rcases List.mem_append.1 hc with h | h
    · by_cases hn : n / 10 = 0
      · simp [hn] at h
      · rw [if_neg hn] at h
        exact ih (n / 10) (by omega) c h
    · have hc2 : c = Nat.digitChar (n % 10) := by simpa using h
      rw [hc2]
      exact digitChar_ne_minus ⟨n % 10, Nat.mod_lt _ (by decide)⟩

/-- `Itoa` gives distinct integers distinct strings. -/
theorem Itoa_inj (a b : Int) (h : Itoa a = Itoa b) : a = b := by
  unfold Itoa at h
  have hd : ∀ n : Nat, (Nat.repr n).data = Nat.toDigits 10 n := fun n => rfl
  have key := congrArg String.data h
  by_cases ha : a < 0 <;> by_cases hb : b < 0
  · simp only [ha, hb, if_true, String.data_append, hd] at key
    have := toDigits_inj _ _ (List.append_cancel_left key)
    omega
  · simp only [ha, hb, if_true, if_false, String.data_append, hd] at key
    have hmem : '-' ∈ Nat.toDigits 10 b.toNat := by
      rw [← key]; simp
    exact absurd rfl (toDigits_no_minus _ _ hmem)
  · simp only [ha, hb, if_true, if_false, String.data_append, hd] at key
    have hmem : '-' ∈ Nat.toDigits 10 a.toNat := by
      rw [key]; simp
    exact absurd rfl (toDigits_no_minus _ _ hmem)
  · simp only [ha, hb, if_false, hd] at key
    have := toDigits_inj _ _ key
    omega

/-- The fallback spelling determines the number in it. -/
theorem fallback_inj (a b : Int)
    (h : "token(" ++ Itoa a ++ ")" = "token(" ++ Itoa b ++ ")") : a = b := by
  have key := congrArg String.data h
  simp only [String.data_append] at key
  have h1 := List.append_cancel_right key
  have h2 := List.append_cancel_left h1
  exact Itoa_inj a b (String.ext h2)

/-- The spellings of the values below `keyword_end`, table strings and sentinel
fallbacks alike. -/
theorem spellings_below_eq :
    (List.range 79).map (fun n : Nat => Token.String (n : Int)) =
      ["ILLEGAL", "EOF", "COMMENT", "token(3)", "IDENT", "INT", "FLOAT", "STRING",
       "token(8)", "token(9)", "+", "-", "*", "/", "%", "&", "|", "^", "<<", ">>", "~",
       "+=", "-=", "*=", "/=", "%=", "&=", "|=", "^=", "<<=", ">>=",
       "&&", "||", "++", "--", "==", "<", ">", "=", "!", "!=", "<=", ">=", ":=", "...",
       "(", "[", "\x7b", ",", ".", ")", "]", "\x7d", ";", ":", "token(55)", "token(56)",
       "break", "case", "const", "continue", "default", "defer", "else", "fallthrough",
       "for", "while", "func", "if", "import", "interface", "map", "package", "range",
       "return", "struct", "switch", "type", "var"] := by
  decide

theorem spellings_below_nodup :
    ((List.range 79).map (fun n : Nat => Token.String (n : Int))).Nodup := by
  rw [spellings_below_eq]
  decide

/-- Below `keyword_end` the spelling determines the value. -/
theorem String_inj_below (i j : Nat) (hi : i < 79) (hj : j < 79)
    (h : Token.String (i : Int) = Token.String (j : Int)) : i = j := by
  have hn := spellings_below_nodup
  have hlen : ((List.range 79).map (fun n : Nat => Token.String (n : Int))).length = 79 := by
    simp
  have := (List.Nodup.get_inj_iff hn (i := ⟨i, by omega⟩) (j := ⟨j, by omega⟩)).1 (by
    simp [h])
  exact congrArg Fin.val this

/-- A spelling is the fallback for its value, or a table string, which does not
begin like a fallback. -/
theorem String_cases (k : Int) :
    Token.String k = "token(" ++ Itoa k ++ ")" ∨
    (0 ≤ k ∧ k < 79 ∧ ¬ List.IsPrefix "token(".toList (Token.String k).toList) := by
  by_cases hk : 0 ≤ k ∧ k < 79
  · have e : (((k.toNat : Nat) : Int)) = k := by omega
    have h := tokens_filled ⟨k.toNat, by omega⟩
    simp only [e] at h
    rcases h with h | ⟨_, _, h3⟩
    · left
      simp only [literal_beg, literal_end, operator_beg, operator_end, keyword_beg,
        List.mem_cons, List.mem_singleton, List.not_mem_nil, or_false] at h
      rcases h with rfl | rfl | rfl | rfl | rfl <;> decide
    · exact Or.inr ⟨hk.1, hk.2, h3⟩
  · left
    have hg : ¬ (0 ≤ k ∧ k < (tokens.length : Int)) := by
      rw [tokens_length]; exact hk
    simp [Token.String, hg]

theorem fallback_has_start (k : Int) :
    List.IsPrefix "token(".toList ("token(" ++ Itoa k ++ ")").toList :=
  ⟨(Itoa k ++ ")").toList, by simp⟩

/-- No string written in the table literal begins like a fallback, and no two
of them are equal. -/
theorem tokenEntries_spellings :
    (∀ p ∈ tokenEntries, ¬ List.IsPrefix "token(".toList p.2.toList) ∧
    (tokenEntries.map Prod.snd).Nodup := by
  decide

/-- C18: `String` is injective over all token values: distinct integers have
distinct spellings. No two table strings are equal, no table string has the
form `token(<n>)`, and distinct fallback strings differ. -/
theorem String_injective :
    (∀ a b : Int, a ≠ b → Token.String a ≠ Token.String b) ∧
    (tokenEntries.map Prod.snd).Nodup ∧
    (∀ p ∈ tokenEntries, ∀ n : Int, p.2 ≠ "token(" ++ Itoa n ++ ")") ∧
    (∀ a b : Int, a ≠ b → "token(" ++ Itoa a ++ ")" ≠ "token(" ++ Itoa b ++ ")") := by
  refine ⟨?_, tokenEntries_spellings.2, ?_, fun a b h hEq => h (fallback_inj a b hEq)⟩
  swap
  · intro p hp n hEq
    exact tokenEntries_spellings.1 p hp (hEq ▸ fallback_has_start n)
  intro a b h hEq
  apply h
  rcases String_cases a with ha | ⟨ha0, ha1, ha2⟩ <;>
    rcases String_cases b with hb | ⟨hb0, hb1, hb2⟩
  · exact fallback_inj a b (ha ▸ hb ▸ hEq)
  · exact absurd (hEq ▸ ha ▸ fallback_has_start a) hb2
  · exact absurd (hEq ▸ hb ▸ fallback_has_start b) ha2
  · have := String_inj_below a.toNat b.toNat (by omega) (by omega) (by
      have ea : (((a.toNat : Nat) : Int)) = a := by omega
      have eb : (((b.toNat : Nat) : Int)) = b := by omega
      rw [ea, eb]; exact hEq)
    omega

theorem String_injective_witness :
    ADD ≠ SUB ∧ Token.String ADD ≠ Token.String SUB :=
  ⟨by decide, String_injective.1 ADD SUB (by decide)⟩

end token
